import Mathlib

/-!
Verification development for the file-Chunking repository.

The repository splits a file into fixed-size chunks, conditionally
compresses each chunk with gzip, records per-chunk and per-file integrity
metadata in a manifest, and can verify or reconstruct the original file.

Shallow embedding of:
* `src/compression.py` — `CompressResult`, `compress_conditional`, `decompress`;
* `src/manifest.py`    — `ChunkEntry`, `Manifest`, `read_manifest`;
* `src/chunker.py`     — `chunk_file`, `rebuild`, `verify`, `stats`.

Python `int` is unbounded, so sizes and counters are `Nat`/`Int` with no
wrap-around.  The `min_gain_ratio` parameter is a Python float; it is
modelled as an exact rational (`ℚ`), matching the exact arithmetic in which
the specification states the compression threshold.  Files on disk are
modelled as an association list from filename to byte string; a folder is
such a list together with the parsed `manifest.json`, if present.  A raised
Python exception is an `Except.error`; a returned value is `Except.ok`.
-/

set_option autoImplicit false
set_option linter.unusedVariables false

namespace FileChunking

/-- A byte string (Python `bytes`).  Entries are the byte values; no claim
depends on the `0..255` bound, so they are plain naturals. -/
abbrev Bytes := List Nat

/-- Errors raised as Python exceptions: `FileNotFoundError` (missing source,
manifest, or chunk file), `ValueError` (unrecognised `stored_as` in
`decompress`, src/compression.py line 49), the error gzip raises on malformed
compressed data, and the `RuntimeError`s of `rebuild`
(src/chunker.py lines 104, 109, 112, 119, 122). -/
inductive PyErr where
  | fileNotFound
  | valueError
  | badGzipData
  | storedHashMismatch (index : Nat)
  | rawSizeMismatch (index : Nat)
  | rawHashMismatch (index : Nat)
  | totalSizeMismatch
  | fileHashMismatch
deriving DecidableEq, Repr

/-! ### Hashing

Modelled from the spec: the code imports `sha256_hex` from `hashing`, a file
of this repository that is not under `src/`.  Spec section 4.1 requires a
deterministic fixed-size digest of a byte sequence, rendered in hexadecimal,
together with a streaming accumulator whose finalisation equals the one-shot
digest of the concatenation of all updates.  The digest is modelled as its
256-bit numeric value (hexadecimal rendering is injective, so every equality
comparison in the code is unchanged), and the accumulator state as the bytes
accumulated so far, which makes the streaming contract definitional. -/

/-- Modelled from the spec: one-shot digest `sha256_hex(bytes)` of
`hashing.py` (not under `src/`): a deterministic fixed-size (256-bit)
digest of a byte sequence. -/
def sha256_hex (b : Bytes) : Nat :=
  b.foldl (fun h x => (h * 257 + x + 1) % 2 ^ 256) 0

/-- Modelled from the spec: fresh streaming hash state
(`_sha256_stream_init`, src/chunker.py lines 195-197). -/
def sha256_stream_init : Bytes := []

/-- Modelled from the spec: `hasher.update(b)` appends bytes to the
accumulated stream. -/
def hasherUpdate (st : Bytes) (b : Bytes) : Bytes := st ++ b

/-- Modelled from the spec: `hasher.hexdigest()` finalises the accumulator:
the digest of everything accumulated so far. -/
def hexdigest (st : Bytes) : Nat := sha256_hex st

/-! ### gzip

Modelled from the spec: `gzip.compress` / `gzip.decompress` are Python
standard-library functions, not code under `src/`.  Spec section 4.2 needs a
"gzip-equivalent-compress" that is deterministic and invertible
(`decompress` is "inverse compression for Compressed" and "fails with a
`DecodeError` if ... payload is not valid compressed data"); the compressed
output may be larger or smaller than the input.  We model it as byte-wise
run-length encoding: the stream is a list of `(count, byte)` pairs with
`1 ≤ count ≤ 255`, flattened as `count, byte, count, byte, …`.  The
`level` argument is pass-through configuration (spec section 4.2) and does
not affect the model. -/

/-- Run-length groups of a byte string: `(byte, count)` pairs in order,
counts in `1..255`, adjacent groups never mergeable. -/
def rleGroups : Bytes → List (Nat × Nat)
  | [] => []
  | b :: rest =>
    match rleGroups rest with
    | [] => [(b, 1)]
    | (c, n) :: gs =>
      if b = c ∧ n < 255 then (c, n + 1) :: gs else (b, 1) :: (c, n) :: gs

/-- Modelled from the spec: `gzip.compress(raw, compresslevel=level)`. -/
def gzipCompress (level : Nat) (raw : Bytes) : Bytes :=
  (rleGroups raw).flatMap (fun g => [g.2, g.1])

/-- Modelled from the spec: `gzip.decompress(payload)`; raises on malformed
data (truncated pair or zero run count). -/
def gzipDecompress : Bytes → Except PyErr Bytes
  | [] => .ok []
  | [_] => .error .badGzipData
  | n :: b :: rest =>
    if n = 0 then .error .badGzipData
    else
      match gzipDecompress rest with
      | .error e => .error e
      | .ok t => .ok (List.replicate n b ++ t)

/-! ### src/compression.py -/

/-- `CompressResult` (src/compression.py lines 10-13).  `stored_as` is the
Python literal string `"raw"` or `"gzip"`. -/
structure CompressResult where
  stored_as : String
  payload : Bytes
deriving DecidableEq, Repr

/-- Python `int()` applied to a (non-integral or integral) number truncates
toward zero. -/
def pyInt (q : ℚ) : ℤ := if 0 ≤ q then ⌊q⌋ else -⌊-q⌋

/-- `compress_conditional` (src/compression.py lines 16-40): empty input is
stored raw; otherwise keep the gzip output only if
`len(comp) <= int(len(raw) * (1.0 - min_gain_ratio))`. -/
def compress_conditional (raw : Bytes) (level : Nat) (min_gain_ratio : ℚ) :
    CompressResult :=
  if raw = [] then { stored_as := "raw", payload := raw }
  else
    let comp := gzipCompress level raw
    if (comp.length : ℤ) ≤ pyInt ((raw.length : ℚ) * (1 - min_gain_ratio)) then
      { stored_as := "gzip", payload := comp }
    else
      { stored_as := "raw", payload := raw }

/-- `decompress` (src/compression.py lines 43-49): identity for `"raw"`,
gzip inversion for `"gzip"`, `ValueError` otherwise. -/
def decompress (payload : Bytes) (stored_as : String) : Except PyErr Bytes :=
  if stored_as = "raw" then .ok payload
  else if stored_as = "gzip" then gzipDecompress payload
  else .error .valueError

/-! ### gzip round-trip lemmas -/

/-- Expansion of run-length groups back to bytes. -/
def rleExpand (gs : List (Nat × Nat)) : Bytes :=
  gs.flatMap (fun g => List.replicate g.2 g.1)

theorem rleExpand_rleGroups (raw : Bytes) : rleExpand (rleGroups raw) = raw := by
  induction raw with
  | nil => rfl
  | cons b rest ih =>
    rw [rleGroups]
    rcases hg : rleGroups rest with _ | ⟨⟨c, n⟩, gs⟩
    · rw [hg] at ih
      simp [rleExpand] at ih
      simp [rleExpand, ih]
    · rw [hg] at ih
      dsimp only
      by_cases hbc : b = c ∧ n < 255
      · rw [if_pos hbc]
        simp only [rleExpand, List.flatMap_cons] at ih ⊢
        rw [List.replicate_succ, hbc.1]
        simp [ih]
      · rw [if_neg hbc]
        simp only [rleExpand, List.flatMap_cons] at ih ⊢
        simp [ih]

theorem rleGroups_counts_pos (raw : Bytes) :
    ∀ g ∈ rleGroups raw, 1 ≤ g.2 := by
  induction raw with
  | nil => intro g hg; simp [rleGroups] at hg
  | cons b rest ih =>
    intro g hg
    rw [rleGroups] at hg
    rcases hgr : rleGroups rest with _ | ⟨⟨c, n⟩, gs⟩
    · rw [hgr] at hg
      simp at hg
      simp [hg]
    · rw [hgr] at hg
      dsimp only at hg
      by_cases hbc : b = c ∧ n < 255
      · rw [if_pos hbc] at hg
        rcases List.mem_cons.1 hg with h | h
        · simp [h]
        · exact ih g (hgr ▸ List.mem_cons_of_mem _ h)
      · rw [if_neg hbc] at hg
        rcases List.mem_cons.1 hg with h | h
        · simp [h]
        · exact ih g (hgr ▸ h)

theorem gzipDecompress_flatMap (gs : List (Nat × Nat))
    (hpos : ∀ g ∈ gs, 1 ≤ g.2) :
    gzipDecompress (gs.flatMap (fun g => [g.2, g.1])) = .ok (rleExpand gs) := by
  induction gs with
  | nil => rfl
  | cons g gs ih =>
    have hg : 1 ≤ g.2 := hpos g (List.mem_cons_self ..)
    have hrest : ∀ h ∈ gs, 1 ≤ h.2 := fun h hm => hpos h (List.mem_cons_of_mem _ hm)
    simp only [List.flatMap_cons, List.cons_append, List.nil_append]
    rw [gzipDecompress]
    rw [if_neg (by omega)]
    rw [ih hrest]
    simp [rleExpand]

/-- `gzip.decompress` inverts `gzip.compress` (spec section 4.2: inverse
compression). -/
theorem gzipDecompress_gzipCompress (level : Nat) (raw : Bytes) :
    gzipDecompress (gzipCompress level raw) = .ok raw := by
  rw [gzipCompress, gzipDecompress_flatMap _ (rleGroups_counts_pos raw),
    rleExpand_rleGroups]

/-- The payload/variant pair returned by `compress_conditional` always
decodes back to the original bytes. -/
theorem decompress_compress_conditional (raw : Bytes) (level : Nat)
    (mgr : ℚ) :
    decompress (compress_conditional raw level mgr).payload
      (compress_conditional raw level mgr).stored_as = .ok raw := by
  rw [compress_conditional]
  by_cases h0 : raw = []
  · rw [if_pos h0]
    simp [decompress, h0]
  · rw [if_neg h0]
    by_cases hc : ((gzipCompress level raw).length : ℤ) ≤
        pyInt ((raw.length : ℚ) * (1 - mgr))
    · simp only [if_pos hc]
      rw [decompress]
      rw [if_neg (by decide), if_pos rfl]
      exact gzipDecompress_gzipCompress level raw
    · simp only [if_neg hc]
      simp [decompress]

/-- Compression of a non-empty byte string is non-empty (real gzip output
always carries a header; in the model, at least one run-length pair). -/
theorem gzipCompress_ne_nil (level : Nat) (raw : Bytes) (h : raw ≠ []) :
    gzipCompress level raw ≠ [] := by
  rcases raw with _ | ⟨b, rest⟩
  · exact absurd rfl h
  · rw [gzipCompress, rleGroups]
    rcases rleGroups rest with _ | ⟨⟨c, n⟩, gs⟩
    · simp
    · dsimp only
      by_cases hbc : b = c ∧ n < 255
      · rw [if_pos hbc]; simp
      · rw [if_neg hbc]; simp

/-! ### src/manifest.py -/

/-- `ChunkEntry` (src/manifest.py lines 10-18).  Digest fields hold the
modelled digest values (see `sha256_hex`). -/
structure ChunkEntry where
  index : Nat
  filename : String
  stored_as : String
  size_raw : Nat
  size_stored : Nat
  sha256_raw : Nat
  sha256_stored : Nat
deriving DecidableEq, Repr

/-- `Manifest` (src/manifest.py lines 21-32).  `version` is a JSON integer;
`min_gain_ratio` is a float, modelled as an exact rational. -/
structure Manifest where
  version : Int
  original_filename : String
  chunk_size : Nat
  compression_level : Nat
  min_gain_ratio : ℚ
  created_at_unix : Nat
  chunks : List ChunkEntry
  sha256_file_raw : Nat
  size_file_raw : Nat
  size_file_stored_total : Nat
deriving DecidableEq, Repr

/-- A chunk folder on disk: the parsed `manifest.json` if that file exists,
plus the other files as an association list from filename to contents.
JSON serialisation is modelled as the identity on the parsed record (the
writer dumps every field and the reader re-reads every field; no claim
depends on the textual encoding). -/
structure Folder where
  manifest : Option Manifest
  files : List (String × Bytes)
deriving DecidableEq, Repr

/-- `read_manifest` (src/manifest.py lines 47-66): raises
`FileNotFoundError` if `manifest.json` is absent, otherwise rebuilds the
record field by field from the parsed data.  Note: no field, in particular
not `version`, is validated. -/
def read_manifest (f : Folder) : Except PyErr Manifest :=
  match f.manifest with
  | none => .error .fileNotFound
  | some data =>
    .ok { version := data.version
          original_filename := data.original_filename
          chunk_size := data.chunk_size
          compression_level := data.compression_level
          min_gain_ratio := data.min_gain_ratio
          created_at_unix := data.created_at_unix
          chunks := data.chunks
          sha256_file_raw := data.sha256_file_raw
          size_file_raw := data.size_file_raw
          size_file_stored_total := data.size_file_stored_total }

/-- Reading `folder / name`: the first file with that name, if present
(filesystems have unique names; `chunk_file` never writes a name twice). -/
def lookupFile (files : List (String × Bytes)) (name : String) : Option Bytes :=
  match files.find? (fun p => p.1 == name) with
  | none => none
  | some p => some p.2

/-! ### Chunk filenames

`chunk_file` names each chunk `f-string <src.stem>.part<idx, zero-padded to width 6>.<ext>`
(src/chunker.py line 51).  The padded index is the decimal rendering of `idx`
left-padded with `'0'` to at least six characters. -/

/-- Decimal digit to character. -/
def digitChar (d : Nat) : Char :=
  if d = 0 then '0' else if d = 1 then '1' else if d = 2 then '2'
  else if d = 3 then '3' else if d = 4 then '4' else if d = 5 then '5'
  else if d = 6 then '6' else if d = 7 then '7' else if d = 8 then '8'
  else '9'

/-- Decimal digits of `n`, most significant first (`[0]` for zero). -/
def decDigits (n : Nat) : List Nat :=
  if n = 0 then [0] else (Nat.digits 10 n).reverse

/-- `format(n, "06d")`: decimal rendering left-padded with zeros to at
least six characters. -/
def pad6 (n : Nat) : List Char :=
  (List.replicate (6 - (decDigits n).length) 0 ++ decDigits n).map digitChar

/-- The chunk filename: stem, ".part", the padded index, a dot, the extension. -/
def partFilename (stem : String) (idx : Nat) (ext : String) : String :=
  stem ++ ".part" ++ String.mk (pad6 idx) ++ "." ++ ext

/-! ### src/chunker.py — chunk (forward) operation

The `while` loop of `chunk_file` (src/chunker.py lines 36-67) is decomposed
into the sequence of reads (`chunkLoop`), the per-chunk processing
(`mkEntry`), and the accumulators, each expressed as a fold over the chunks
in read order — exactly the order the loop updates them. -/

/-- The sequence of `f.read(chunk_size)` results (src/chunker.py lines
38-41): repeatedly take up to `chunk_size` bytes until a read yields zero
bytes.  (`f.read(0)` returns the empty string, so a zero window stops at
once, as in Python.) -/
def chunkLoop (chunk_size : Nat) (content : Bytes) : List Bytes :=
  if h : content.take chunk_size = [] then []
  else content.take chunk_size :: chunkLoop chunk_size (content.drop chunk_size)
termination_by content.length
decreasing_by
  have h1 : chunk_size ≠ 0 := by
    intro hz; rw [hz] at h; simp at h
  have h2 : content ≠ [] := by
    intro hz; rw [hz] at h; simp at h
  rcases content with _ | ⟨b, rest⟩
  · exact absurd rfl h2
  · simp [List.length_drop]
    omega

/-- Python's `enumerate`-like pairing of the loop counter `idx` (starting
at `k`, incremented once per chunk) with each chunk. -/
def enumFrom {α : Type} (k : Nat) : List α → List (Nat × α)
  | [] => []
  | a :: l => (k, a) :: enumFrom (k + 1) l

/-- The per-chunk body of the loop (src/chunker.py lines 46-66): hash the
raw bytes, run the conditional compressor, hash the payload, derive the
filename from the stem, the zero-padded index and the variant extension,
and produce the `ChunkEntry` together with the file written to disk. -/
def mkEntry (stem : String) (level : Nat) (mgr : ℚ) (idx : Nat) (raw : Bytes) :
    ChunkEntry × (String × Bytes) :=
  let res := compress_conditional raw level mgr
  let ext := if res.stored_as = "raw" then "raw" else "gz"
  let filename := partFilename stem idx ext
  ({ index := idx
     filename := filename
     stored_as := res.stored_as
     size_raw := raw.length
     size_stored := res.payload.length
     sha256_raw := sha256_hex raw
     sha256_stored := sha256_hex res.payload },
   (filename, res.payload))

/-- `chunk_file` (src/chunker.py lines 14-83).  The source path is
represented by its base name `src_name` (`src.name`) and stem `src_stem`
(`src.stem`) together with its `content`; the existing-file check and the
folder creation are filesystem preconditions outside the byte-level model.
Returns the folder written: all chunk files plus `manifest.json`. -/
def chunk_file (src_name src_stem : String) (content : Bytes)
    (chunk_size compression_level : Nat) (min_gain_ratio : ℚ)
    (created_at_unix : Nat) : Folder :=
  let raws := chunkLoop chunk_size content
  let items := (enumFrom 0 raws).map
    (fun p => mkEntry src_stem compression_level min_gain_ratio p.1 p.2)
  { manifest := some
      { version := 1
        original_filename := src_name
        chunk_size := chunk_size
        compression_level := compression_level
        min_gain_ratio := min_gain_ratio
        created_at_unix := created_at_unix
        chunks := items.map Prod.fst
        sha256_file_raw := hexdigest (raws.foldl hasherUpdate sha256_stream_init)
        size_file_raw := raws.foldl (fun t raw => t + raw.length) 0
        size_file_stored_total := items.foldl (fun t it => t + it.2.2.length) 0 }
    files := items.map Prod.snd }

/-! ### src/chunker.py — rebuild (inverse) operation -/

/-- The loop of `rebuild` (src/chunker.py lines 97-116), threading the
output bytes written so far, the streaming hash state, and the
`bytes_written` counter.  A missing chunk file raises `FileNotFoundError`
(from `read_bytes`); failed integrity checks raise `RuntimeError`s. -/
def rebuildLoop (files : List (String × Bytes)) :
    List ChunkEntry → Bytes → Bytes → Nat → Except PyErr (Bytes × Bytes × Nat)
  | [], out, st, bytes_written => .ok (out, st, bytes_written)
  | c :: rest, out, st, bytes_written =>
    match lookupFile files c.filename with
    | none => .error .fileNotFound
    | some payload =>
      if sha256_hex payload ≠ c.sha256_stored then
        .error (.storedHashMismatch c.index)
      else
        match decompress payload c.stored_as with
        | .error e => .error e
        | .ok raw =>
          if raw.length ≠ c.size_raw then .error (.rawSizeMismatch c.index)
          else if sha256_hex raw ≠ c.sha256_raw then
            .error (.rawHashMismatch c.index)
          else
            rebuildLoop files rest (out ++ raw) (hasherUpdate st raw)
              (bytes_written + raw.length)

/-- `rebuild` (src/chunker.py lines 86-122): read the manifest, process the
chunks in manifest order, then check the total size and the file-level
digest.  On success the value is the byte content of the output file. -/
def rebuild (f : Folder) : Except PyErr Bytes :=
  match read_manifest f with
  | .error e => .error e
  | .ok mf =>
    match rebuildLoop f.files mf.chunks [] sha256_stream_init 0 with
    | .error e => .error e
    | .ok (out, st, bytes_written) =>
      if bytes_written ≠ mf.size_file_raw then .error .totalSizeMismatch
      else if hexdigest st ≠ mf.sha256_file_raw then .error .fileHashMismatch
      else .ok out

/-! ### src/chunker.py — verify operation -/

/-- The structured failure reasons `verify` can report (the f-strings of
src/chunker.py lines 137, 143, 149, 152, 157, 160; each rendered string is
determined by the constructor and its arguments). -/
inductive VReason where
  | missing (filename : String)
  | storedHashMismatch (index : Nat)
  | rawSizeMismatch (index : Nat)
  | rawHashMismatch (index : Nat)
  | totalRawMismatch
  | fileHashMismatch
deriving DecidableEq, Repr

/-- The success dictionary `verify` returns (src/chunker.py lines 162-170). -/
structure VerifyOk where
  chunks : Nat
  size_file_raw : Nat
  size_file_stored_total : Nat
  ratio : ℚ
  algo : String
  min_gain_ratio : ℚ
deriving DecidableEq, Repr

/-- The structured result of `verify`: success with aggregate stats, or
failure with a reason. -/
inductive VResult where
  | ok (s : VerifyOk)
  | fail (r : VReason)
deriving DecidableEq, Repr

/-- The loop of `verify` (src/chunker.py lines 134-154), threading the
streaming hash state and the `total_raw` / `total_stored` counters.
`total_stored` is accumulated by the source but never used afterwards.
A structured failure is `.ok (.inl reason)`; passing all per-chunk checks
is `.ok (.inr (state, total_raw, total_stored))`; an exception escaping
the loop (only `decompress` can raise here) is `.error`. -/
def verifyChunks (files : List (String × Bytes)) :
    List ChunkEntry → Bytes → Nat → Nat →
      Except PyErr (VReason ⊕ (Bytes × Nat × Nat))
  | [], st, total_raw, total_stored => .ok (.inr (st, total_raw, total_stored))
  | c :: rest, st, total_raw, total_stored =>
    match lookupFile files c.filename with
    | none => .ok (.inl (.missing c.filename))
    | some payload =>
      let total_stored := total_stored + payload.length
      if sha256_hex payload ≠ c.sha256_stored then
        .ok (.inl (.storedHashMismatch c.index))
      else
        match decompress payload c.stored_as with
        | .error e => .error e
        | .ok raw =>
          let total_raw := total_raw + raw.length
          if raw.length ≠ c.size_raw then .ok (.inl (.rawSizeMismatch c.index))
          else if sha256_hex raw ≠ c.sha256_raw then
            .ok (.inl (.rawHashMismatch c.index))
          else verifyChunks files rest (hasherUpdate st raw) total_raw total_stored

/-- `verify` (src/chunker.py lines 125-170). -/
def verify (f : Folder) : Except PyErr VResult :=
  match read_manifest f with
  | .error e => .error e
  | .ok mf =>
    match verifyChunks f.files mf.chunks sha256_stream_init 0 0 with
    | .error e => .error e
    | .ok (.inl r) => .ok (.fail r)
    | .ok (.inr (st, total_raw, _total_stored)) =>
      if total_raw ≠ mf.size_file_raw then .ok (.fail .totalRawMismatch)
      else if hexdigest st ≠ mf.sha256_file_raw then .ok (.fail .fileHashMismatch)
      else .ok (.ok
        { chunks := mf.chunks.length
          size_file_raw := mf.size_file_raw
          size_file_stored_total := mf.size_file_stored_total
          ratio := if mf.size_file_raw ≠ 0 then
              (mf.size_file_stored_total : ℚ) / (mf.size_file_raw : ℚ)
            else 0
          algo := "gzip + conditional(raw fallback)"
          min_gain_ratio := mf.min_gain_ratio })

/-! ### src/chunker.py — stats operation -/

/-- The dictionary `stats` returns (src/chunker.py lines 183-192). -/
structure StatsResult where
  chunks_total : Nat
  chunks_raw : Nat
  chunks_gzip : Nat
  chunk_size : Nat
  size_file_raw : Nat
  size_file_stored_manifest : Nat
  size_file_stored_actual : Nat
  ratio : ℚ
deriving DecidableEq, Repr

/-- The `stored_actual` accumulation of `stats` (src/chunker.py lines
179-181): sum of `(folder / c.filename).stat().st_size` over the manifest
entries; `stat` raises `FileNotFoundError` for a missing file. -/
def statSum (files : List (String × Bytes)) :
    List ChunkEntry → Nat → Except PyErr Nat
  | [], acc => .ok acc
  | c :: rest, acc =>
    match lookupFile files c.filename with
    | none => .error .fileNotFound
    | some payload => statSum files rest (acc + payload.length)

/-- `stats` (src/chunker.py lines 173-192): manifest bookkeeping plus the
actual on-disk sizes; no decompression and no hash comparison anywhere. -/
def stats (f : Folder) : Except PyErr StatsResult :=
  match read_manifest f with
  | .error e => .error e
  | .ok mf =>
    let raw_chunks := (mf.chunks.filter (fun c => c.stored_as == "raw")).length
    let gz_chunks := mf.chunks.length - raw_chunks
    match statSum f.files mf.chunks 0 with
    | .error e => .error e
    | .ok stored_actual =>
      .ok { chunks_total := mf.chunks.length
            chunks_raw := raw_chunks
            chunks_gzip := gz_chunks
            chunk_size := mf.chunk_size
            size_file_raw := mf.size_file_raw
            size_file_stored_manifest := mf.size_file_stored_total
            size_file_stored_actual := stored_actual
            ratio := if mf.size_file_raw ≠ 0 then
                (stored_actual : ℚ) / (mf.size_file_raw : ℚ)
              else 0 }

/-! ### Specification-side description of verify (for the fail-fast claim)

These definitions follow the words of spec section 4.5: walk the chunk
sequence in ascending index order, apply the per-chunk checks, stop at the
first failing check; if every chunk passes, check the totals and report the
aggregate stats.  `verify` is proved equal to this description. -/

/-- The checks spec section 4.5 applies to one chunk, in order: chunk file
present, stored hash, decode, raw size, raw hash.  Independent of any other
chunk.  `.inl` is the structured failure, `.inr` the decompressed bytes of
a passing chunk; a decode exception propagates. -/
def chunkCheck (files : List (String × Bytes)) (c : ChunkEntry) :
    Except PyErr (VReason ⊕ Bytes) :=
  match lookupFile files c.filename with
  | none => .ok (.inl (.missing c.filename))
  | some payload =>
    if sha256_hex payload ≠ c.sha256_stored then
      .ok (.inl (.storedHashMismatch c.index))
    else
      match decompress payload c.stored_as with
      | .error e => .error e
      | .ok raw =>
        if raw.length ≠ c.size_raw then .ok (.inl (.rawSizeMismatch c.index))
        else if sha256_hex raw ≠ c.sha256_raw then
          .ok (.inl (.rawHashMismatch c.index))
        else .ok (.inr raw)

/-- First failing check over the chunk sequence (fail-fast: nothing after
the first failure is examined); if all pass, the decompressed bytes of
every chunk, in order. -/
def firstFailure (files : List (String × Bytes)) :
    List ChunkEntry → Except PyErr (VReason ⊕ List Bytes)
  | [] => .ok (.inr [])
  | c :: rest =>
    match chunkCheck files c with
    | .error e => .error e
    | .ok (.inl r) => .ok (.inl r)
    | .ok (.inr raw) =>
      match firstFailure files rest with
      | .error e => .error e
      | .ok (.inl r) => .ok (.inl r)
      | .ok (.inr raws) => .ok (.inr (raw :: raws))

/-- Spec section 4.5, as a function: the first failing check (in chunk
sequence order) as a structured failure, else the total-size and file-hash
checks, else success with chunk count, raw size, stored size, ratio
stored/raw, and the configured `min_gain_ratio`. -/
def verifySpec (f : Folder) : Except PyErr VResult :=
  match read_manifest f with
  | .error e => .error e
  | .ok mf =>
    match firstFailure f.files mf.chunks with
    | .error e => .error e
    | .ok (.inl r) => .ok (.fail r)
    | .ok (.inr raws) =>
      if (raws.map List.length).sum ≠ mf.size_file_raw then
        .ok (.fail .totalRawMismatch)
      else if sha256_hex raws.flatten ≠ mf.sha256_file_raw then
        .ok (.fail .fileHashMismatch)
      else .ok (.ok
        { chunks := mf.chunks.length
          size_file_raw := mf.size_file_raw
          size_file_stored_total := mf.size_file_stored_total
          ratio := if mf.size_file_raw ≠ 0 then
              (mf.size_file_stored_total : ℚ) / (mf.size_file_raw : ℚ)
            else 0
          algo := "gzip + conditional(raw fallback)"
          min_gain_ratio := mf.min_gain_ratio })

/-! ### Helper lemmas: the read loop, enumeration, accumulators, lookups -/

theorem chunkLoop_eq_nil {chunk_size : Nat} {content : Bytes}
    (h : content.take chunk_size = []) : chunkLoop chunk_size content = [] := by
  rw [chunkLoop, dif_pos h]

theorem chunkLoop_eq_cons {chunk_size : Nat} {content : Bytes}
    (h : content.take chunk_size ≠ []) :
    chunkLoop chunk_size content =
      content.take chunk_size :: chunkLoop chunk_size (content.drop chunk_size) := by
  rw [chunkLoop, dif_neg h]

theorem chunkLoop_nil (chunk_size : Nat) : chunkLoop chunk_size [] = [] :=
  chunkLoop_eq_nil (by simp)

/-- An empty read means the source is exhausted (for a positive window). -/
theorem eq_nil_of_take_eq_nil {chunk_size : Nat} (hcs : 0 < chunk_size)
    {content : Bytes} (h : content.take chunk_size = []) : content = [] := by
  rcases content with _ | ⟨b, r⟩
  · rfl
  · rcases chunk_size with _ | cs
    · omega
    · simp [List.take_succ_cons] at h

theorem chunkLoop_flatten_aux (chunk_size : Nat) (hcs : 0 < chunk_size) :
    ∀ (fuel : Nat) (content : Bytes), content.length ≤ fuel →
      (chunkLoop chunk_size content).flatten = content := by
  intro fuel
  induction fuel with
  | zero =>
    intro content hle
    have hc : content = [] := by
      rcases content with _ | ⟨b, r⟩
      · rfl
      · simp at hle
    rw [hc, chunkLoop_nil, List.flatten_nil]
  | succ fuel ih =>
    intro content hle
    by_cases h : content.take chunk_size = []
    · rw [chunkLoop_eq_nil h, List.flatten_nil, eq_nil_of_take_eq_nil hcs h]
    · have hne : content ≠ [] := by
        intro hz; rw [hz] at h; simp at h
      have hlen : 0 < content.length := List.length_pos.2 hne
      rw [chunkLoop_eq_cons h, List.flatten_cons,
        ih (content.drop chunk_size) (by simp [List.length_drop]; omega),
        List.take_append_drop]

/-- Concatenating the reads recovers the source (for a positive window). -/
theorem chunkLoop_flatten (chunk_size : Nat) (hcs : 0 < chunk_size)
    (content : Bytes) : (chunkLoop chunk_size content).flatten = content :=
  chunkLoop_flatten_aux chunk_size hcs content.length content (Nat.le_refl _)

theorem enumFrom_map_snd {α : Type} (k : Nat) (l : List α) :
    (enumFrom k l).map Prod.snd = l := by
  induction l generalizing k with
  | nil => rfl
  | cons a l ih => simp [enumFrom, ih]

theorem enumFrom_map_fst {α : Type} (k : Nat) (l : List α) :
    (enumFrom k l).map Prod.fst = List.range' k l.length := by
  induction l generalizing k with
  | nil => rfl
  | cons a l ih => simp [enumFrom, ih, List.range'_succ]

theorem enumFrom_fst_le {α : Type} (k : Nat) (l : List α) :
    ∀ p ∈ enumFrom k l, k ≤ p.1 := by
  induction l generalizing k with
  | nil => intro p hp; simp [enumFrom] at hp
  | cons a l ih =>
    intro p hp
    rcases List.mem_cons.1 hp with h | h
    · simp [h]
    · exact Nat.le_of_succ_le (ih (k + 1) p h)

/-- The loop counter pairs carry strictly increasing indices. -/
theorem enumFrom_pairwise {α : Type} (k : Nat) (l : List α) :
    (enumFrom k l).Pairwise (fun a b => a.1 < b.1) := by
  induction l generalizing k with
  | nil => exact List.Pairwise.nil
  | cons a l ih =>
    refine List.Pairwise.cons ?_ (ih (k + 1))
    intro p hp
    exact Nat.lt_of_lt_of_le (Nat.lt_succ_self k) (enumFrom_fst_le (k + 1) l p hp)

theorem foldl_add_length (l : List Bytes) :
    ∀ t : Nat, l.foldl (fun t raw => t + raw.length) t = t + (l.map List.length).sum := by
  induction l with
  | nil => intro t; simp
  | cons a l ih => intro t; simp [ih, Nat.add_assoc]

theorem foldl_hasherUpdate (l : List Bytes) :
    ∀ st : Bytes, l.foldl hasherUpdate st = st ++ l.flatten := by
  induction l with
  | nil => intro st; simp
  | cons a l ih => intro st; simp [hasherUpdate, ih]

/-- In a folder with pairwise-distinct filenames, reading a written file
returns its contents. -/
theorem lookupFile_eq_some {files : List (String × Bytes)}
    (hdist : files.Pairwise (fun a b => a.1 ≠ b.1)) {n : String} {b : Bytes}
    (hmem : (n, b) ∈ files) : lookupFile files n = some b := by
  induction files with
  | nil => simp at hmem
  | cons p rest ih =>
    rcases List.pairwise_cons.1 hdist with ⟨hhead, htail⟩
    rcases List.mem_cons.1 hmem with h | h
    · rw [lookupFile, List.find?_cons_of_pos _ (by rw [← h]; simp)]
      rw [← h]
    · have hne : p.1 ≠ n := hhead (n, b) h
      have := ih htail h
      rw [lookupFile] at this ⊢
      rw [List.find?_cons_of_neg _ (by simpa using hne)]
      exact this

/-! ### Helper lemmas: chunk filenames are injective in the index -/

theorem digitChar_inj {d e : Nat} (hd : d < 10) (he : e < 10)
    (h : digitChar d = digitChar e) : d = e := by
  interval_cases d <;> interval_cases e <;> revert h <;> decide

theorem digitChar_ne_dot {d : Nat} (hd : d < 10) : digitChar d ≠ '.' := by
  interval_cases d <;> decide

theorem decDigits_lt (n : Nat) : ∀ d ∈ decDigits n, d < 10 := by
  intro d hd
  rw [decDigits] at hd
  by_cases h : n = 0
  · rw [if_pos h] at hd
    simp at hd
    omega
  · rw [if_neg h] at hd
    exact Nat.digits_lt_base (by norm_num) (List.mem_reverse.1 hd)

/-- The zero-padded digit list under the rendering `pad6`. -/
def paddedDigits (n : Nat) : List Nat :=
  List.replicate (6 - (decDigits n).length) 0 ++ decDigits n

theorem pad6_eq_map (n : Nat) : pad6 n = (paddedDigits n).map digitChar := rfl

theorem paddedDigits_lt (n : Nat) : ∀ d ∈ paddedDigits n, d < 10 := by
  intro d hd
  rcases List.mem_append.1 hd with h | h
  · rw [List.eq_of_mem_replicate h]; omega
  · exact decDigits_lt n d h

theorem ofDigits_replicate_zero (k : Nat) :
    Nat.ofDigits 10 (List.replicate k 0) = 0 := by
  induction k with
  | zero => rfl
  | succ k ih => simp [List.replicate_succ, Nat.ofDigits_cons, ih]

/-- Reading the padded decimal rendering back recovers the number: leading
zeros do not change the value. -/
theorem ofDigits_reverse_paddedDigits (n : Nat) :
    Nat.ofDigits 10 (paddedDigits n).reverse = n := by
  rw [paddedDigits, List.reverse_append, List.reverse_replicate,
    Nat.ofDigits_append, ofDigits_replicate_zero]
  by_cases h : n = 0
  · rw [h]
    simp [decDigits, Nat.ofDigits_cons]
  · rw [decDigits, if_neg h, List.reverse_reverse, Nat.ofDigits_digits]
    ring

theorem map_digitChar_inj :
    ∀ (l1 l2 : List Nat), (∀ x ∈ l1, x < 10) → (∀ x ∈ l2, x < 10) →
      l1.map digitChar = l2.map digitChar → l1 = l2 := by
  intro l1
  induction l1 with
  | nil =>
    intro l2 _ _ h
    cases l2 with
    | nil => rfl
    | cons b l2 => simp at h
  | cons a l1 ih =>
    intro l2 h1 h2 h
    cases l2 with
    | nil => simp at h
    | cons b l2 =>
      simp only [List.map_cons, List.cons.injEq] at h
      have ha : a = b := digitChar_inj (h1 a (List.mem_cons_self ..))
        (h2 b (List.mem_cons_self ..)) h.1
      have hl : l1 = l2 := ih l2 (fun x hx => h1 x (List.mem_cons_of_mem _ hx))
        (fun x hx => h2 x (List.mem_cons_of_mem _ hx)) h.2
      rw [ha, hl]

theorem pad6_inj {a b : Nat} (h : pad6 a = pad6 b) : a = b := by
  rw [pad6_eq_map, pad6_eq_map] at h
  have hp : paddedDigits a = paddedDigits b :=
    map_digitChar_inj _ _ (paddedDigits_lt a) (paddedDigits_lt b) h
  have hv := congrArg (fun l => Nat.ofDigits 10 l.reverse) hp
  simp only [ofDigits_reverse_paddedDigits] at hv
  exact_mod_cast hv

theorem pad6_ne_dot (n : Nat) : ∀ c ∈ pad6 n, c ≠ '.' := by
  intro c hc
  rw [pad6_eq_map] at hc
  rcases List.mem_map.1 hc with ⟨d, hd, hdc⟩
  rw [← hdc]
  exact digitChar_ne_dot (paddedDigits_lt n d hd)

/-- Two all-digit runs followed by a dot separator: equal renderings force
equal runs. -/
theorem append_dot_inj :
    ∀ (a b u v : List Char), (∀ c ∈ a, c ≠ '.') → (∀ c ∈ b, c ≠ '.') →
      a ++ '.' :: u = b ++ '.' :: v → a = b := by
  intro a
  induction a with
  | nil =>
    intro b u v _ hb h
    cases b with
    | nil => rfl
    | cons x b =>
      simp only [List.nil_append, List.cons_append, List.cons.injEq] at h
      exact absurd h.1.symm (hb x (List.mem_cons_self ..))
  | cons x a ih =>
    intro b u v ha hb h
    cases b with
    | nil =>
      simp only [List.cons_append, List.nil_append, List.cons.injEq] at h
      exact absurd h.1 (ha x (List.mem_cons_self ..))
    | cons y b =>
      simp only [List.cons_append, List.cons.injEq] at h
      have := ih b u v (fun c hc => ha c (List.mem_cons_of_mem _ hc))
        (fun c hc => hb c (List.mem_cons_of_mem _ hc)) h.2
      rw [h.1, this]

theorem string_append_data (s t : String) : (s ++ t).data = s.data ++ t.data := rfl

/-- Chunk filenames with the same stem but different indices differ,
whatever the extensions. -/
theorem partFilename_inj_idx {stem : String} {i j : Nat} {e1 e2 : String}
    (h : partFilename stem i e1 = partFilename stem j e2) : i = j := by
  have hdata := congrArg String.data h
  simp only [partFilename, string_append_data, List.append_assoc] at hdata
  have h1 := List.append_cancel_left hdata
  have h2 := List.append_cancel_left h1
  have hpads : pad6 i = pad6 j := by
    refine append_dot_inj _ _ e1.data e2.data
      (pad6_ne_dot i) (pad6_ne_dot j) ?_
    simpa using h2
  exact pad6_inj hpads

/-! ### Helper lemmas: per-chunk fields of the entry built by the loop body -/

@[simp] theorem mkEntry_index (stem : String) (level : Nat) (mgr : ℚ)
    (idx : Nat) (raw : Bytes) : (mkEntry stem level mgr idx raw).1.index = idx := rfl

@[simp] theorem mkEntry_size_raw (stem : String) (level : Nat) (mgr : ℚ)
    (idx : Nat) (raw : Bytes) :
    (mkEntry stem level mgr idx raw).1.size_raw = raw.length := rfl

@[simp] theorem mkEntry_size_stored (stem : String) (level : Nat) (mgr : ℚ)
    (idx : Nat) (raw : Bytes) :
    (mkEntry stem level mgr idx raw).1.size_stored =
      (compress_conditional raw level mgr).payload.length := rfl

@[simp] theorem mkEntry_sha_stored (stem : String) (level : Nat) (mgr : ℚ)
    (idx : Nat) (raw : Bytes) :
    (mkEntry stem level mgr idx raw).1.sha256_stored =
      sha256_hex (compress_conditional raw level mgr).payload := rfl

@[simp] theorem mkEntry_payload (stem : String) (level : Nat) (mgr : ℚ)
    (idx : Nat) (raw : Bytes) :
    (mkEntry stem level mgr idx raw).2.2 =
      (compress_conditional raw level mgr).payload := rfl

theorem mkEntry_filename_eq (stem : String) (level : Nat) (mgr : ℚ)
    (idx : Nat) (raw : Bytes) :
    (mkEntry stem level mgr idx raw).1.filename =
      (mkEntry stem level mgr idx raw).2.1 := rfl

/-- Mapping a function of the chunk only (not the index) over the
enumerated list is mapping it over the chunks. -/
theorem enumFrom_map_of_snd {α β : Type} (g : α → β) (k : Nat) (l : List α) :
    (enumFrom k l).map (fun p => g p.2) = l.map g := by
  induction l generalizing k with
  | nil => rfl
  | cons a l ih => simp [enumFrom, ih]

/-- The accumulate-in-a-loop pattern `t += f(x)` is the sum of the mapped
values. -/
theorem foldl_add_of {α : Type} (f : α → Nat) (l : List α) :
    ∀ t : Nat, l.foldl (fun t a => t + f a) t = t + (l.map f).sum := by
  induction l with
  | nil => intro t; simp
  | cons a l ih => intro t; simp [ih, Nat.add_assoc]

theorem enumFrom_length {α : Type} (k : Nat) (l : List α) :
    (enumFrom k l).length = l.length := by
  induction l generalizing k with
  | nil => rfl
  | cons a l ih => simp [enumFrom, ih]

theorem map_mkEntry_index (stem : String) (level : Nat) (mgr : ℚ)
    (l : List (Nat × Bytes)) :
    (((l.map (fun p => mkEntry stem level mgr p.1 p.2)).map Prod.fst).map
      (fun c => c.index)) = l.map Prod.fst := by
  induction l with
  | nil => rfl
  | cons p l ih => simp [ih]

theorem map_mkEntry_size_raw (stem : String) (level : Nat) (mgr : ℚ)
    (l : List (Nat × Bytes)) :
    (((l.map (fun p => mkEntry stem level mgr p.1 p.2)).map Prod.fst).map
      (fun c => c.size_raw)) = l.map (fun p => p.2.length) := by
  induction l with
  | nil => rfl
  | cons p l ih => simp [ih]

theorem map_mkEntry_size_stored (stem : String) (level : Nat) (mgr : ℚ)
    (l : List (Nat × Bytes)) :
    (((l.map (fun p => mkEntry stem level mgr p.1 p.2)).map Prod.fst).map
      (fun c => c.size_stored)) =
      l.map (fun p => (compress_conditional p.2 level mgr).payload.length) := by
  induction l with
  | nil => rfl
  | cons p l ih => simp [ih]

theorem foldl_items_stored (stem : String) (level : Nat) (mgr : ℚ)
    (l : List (Nat × Bytes)) :
    ((l.map (fun p => mkEntry stem level mgr p.1 p.2)).foldl
      (fun t it => t + it.2.2.length) 0) =
      (l.map (fun p => (compress_conditional p.2 level mgr).payload.length)).sum := by
  have h := foldl_add_of (fun it : ChunkEntry × (String × Bytes) => it.2.2.length)
    (l.map (fun p => mkEntry stem level mgr p.1 p.2)) 0
  rw [h, List.map_map, Nat.zero_add]
  congr 1

/-! ### Helper lemmas: the chunk set written by chunk_file -/

theorem read_manifest_some {f : Folder} {m : Manifest} (h : f.manifest = some m) :
    read_manifest f = .ok m := by
  rw [read_manifest, h]

/-- The chunk files written in one `chunk_file` run have pairwise-distinct
names: the zero-padded index renders injectively. -/
theorem chunkFiles_pairwise (stem : String) (level : Nat) (mgr : ℚ)
    (l : List (Nat × Bytes)) (hp : l.Pairwise (fun a b => a.1 < b.1)) :
    (l.map (fun p => (mkEntry stem level mgr p.1 p.2).2)).Pairwise
      (fun a b => a.1 ≠ b.1) := by
  rw [List.pairwise_map]
  refine hp.imp ?_
  intro a b hab heq
  have : a.1 = b.1 := partFilename_inj_idx heq
  omega

/-- Processing, via `rebuild`'s loop, the chunk entries produced by
`chunk_file`'s per-chunk body: every check passes and the raw bytes are
appended in order. -/
theorem rebuildLoop_of_chunks (stem : String) (level : Nat) (mgr : ℚ)
    (files : List (String × Bytes))
    (hdist : files.Pairwise (fun a b => a.1 ≠ b.1)) :
    ∀ (l : List (Nat × Bytes)) (out st : Bytes) (bw : Nat),
      (∀ p ∈ l, (mkEntry stem level mgr p.1 p.2).2 ∈ files) →
      rebuildLoop files (l.map (fun p => (mkEntry stem level mgr p.1 p.2).1))
          out st bw =
        .ok (out ++ (l.map Prod.snd).flatten, st ++ (l.map Prod.snd).flatten,
          bw + ((l.map Prod.snd).map List.length).sum) := by
  intro l
  induction l with
  | nil => intro out st bw _; simp [rebuildLoop]
  | cons p rest ih =>
    intro out st bw hmem
    obtain ⟨i, raw⟩ := p
    have hfile : ((mkEntry stem level mgr i raw).2.1,
        (mkEntry stem level mgr i raw).2.2) ∈ files := by
      simpa using hmem (i, raw) (List.mem_cons_self ..)
    have hlook : lookupFile files (mkEntry stem level mgr i raw).2.1 =
        some (mkEntry stem level mgr i raw).2.2 := lookupFile_eq_some hdist hfile
    simp only [List.map_cons]
    rw [rebuildLoop]
    rw [show (mkEntry stem level mgr i raw).1.filename =
      (mkEntry stem level mgr i raw).2.1 from rfl, hlook]
    dsimp only
    rw [if_neg (by simp [mkEntry])]
    rw [show (mkEntry stem level mgr i raw).1.stored_as =
        (compress_conditional raw level mgr).stored_as from rfl,
      show (mkEntry stem level mgr i raw).2.2 =
        (compress_conditional raw level mgr).payload from rfl,
      decompress_compress_conditional raw level mgr]
    dsimp only
    rw [if_neg (by simp [mkEntry])]
    rw [if_neg (by simp [mkEntry])]
    rw [ih (out ++ raw) (hasherUpdate st raw) (bw + raw.length)
      (fun q hq => hmem q (List.mem_cons_of_mem _ hq))]
    simp [hasherUpdate, Nat.add_assoc]

/-- Rebuilding a folder written by `chunk_file` succeeds and returns the
concatenation of the reads; whenever that concatenation is the whole source
(in particular for any positive window), the source is reproduced. -/
theorem rebuild_chunk_file_of_flatten (src_name src_stem : String)
    (content : Bytes) (chunk_size compression_level : Nat)
    (min_gain_ratio : ℚ) (created_at_unix : Nat)
    (hflat : (chunkLoop chunk_size content).flatten = content) :
    rebuild (chunk_file src_name src_stem content chunk_size
      compression_level min_gain_ratio created_at_unix) = .ok content := by
  set raws := chunkLoop chunk_size content with hraws
  set l := enumFrom 0 raws with hldef
  set items := l.map
    (fun p => mkEntry src_stem compression_level min_gain_ratio p.1 p.2)
    with hitems
  have hchunks_eq : items.map Prod.fst =
      l.map (fun p =>
        (mkEntry src_stem compression_level min_gain_ratio p.1 p.2).1) := by
    rw [hitems, List.map_map]; rfl
  have hfiles_eq : items.map Prod.snd =
      l.map (fun p =>
        (mkEntry src_stem compression_level min_gain_ratio p.1 p.2).2) := by
    rw [hitems, List.map_map]; rfl
  have hdist : (items.map Prod.snd).Pairwise (fun a b => a.1 ≠ b.1) := by
    rw [hfiles_eq]
    exact chunkFiles_pairwise _ _ _ _ (enumFrom_pairwise 0 raws)
  have hmem : ∀ p ∈ l,
      (mkEntry src_stem compression_level min_gain_ratio p.1 p.2).2 ∈
        items.map Prod.snd := by
    intro p hp
    rw [hfiles_eq]
    exact List.mem_map_of_mem _ hp
  have hloop := rebuildLoop_of_chunks src_stem compression_level min_gain_ratio
    (items.map Prod.snd) hdist l [] sha256_stream_init 0 hmem
  have hsnd : l.map Prod.snd = raws := enumFrom_map_snd 0 raws
  rw [rebuild]
  rw [read_manifest_some (show (chunk_file src_name src_stem content chunk_size
    compression_level min_gain_ratio created_at_unix).manifest = some
      { version := 1
        original_filename := src_name
        chunk_size := chunk_size
        compression_level := compression_level
        min_gain_ratio := min_gain_ratio
        created_at_unix := created_at_unix
        chunks := items.map Prod.fst
        sha256_file_raw := hexdigest (raws.foldl hasherUpdate sha256_stream_init)
        size_file_raw := raws.foldl (fun t raw => t + raw.length) 0
        size_file_stored_total := items.foldl (fun t it => t + it.2.2.length) 0 }
    from rfl)]
  dsimp only
  rw [show (chunk_file src_name src_stem content chunk_size compression_level
    min_gain_ratio created_at_unix).files = items.map Prod.snd from rfl]
  rw [hchunks_eq, hloop]
  dsimp only
  rw [hsnd, foldl_add_length, foldl_hasherUpdate]
  rw [if_neg (by simp)]
  rw [if_neg (by simp [sha256_stream_init])]
  simp [sha256_stream_init, hflat]

/-! ### Claim theorems -/

/-- C1: for every source file content (sizes 0, 1, chunk_size-1,
chunk_size, chunk_size+1, or spanning multiple chunks — all byte strings)
and every positive chunk_size, running `chunk_file` and then `rebuild` on
the resulting folder reproduces the source bytes exactly. -/
theorem chunk_rebuild_roundTrip (src_name src_stem : String) (content : Bytes)
    (chunk_size compression_level : Nat) (min_gain_ratio : ℚ)
    (created_at_unix : Nat) (hcs : 0 < chunk_size) :
    rebuild (chunk_file src_name src_stem content chunk_size
      compression_level min_gain_ratio created_at_unix) = .ok content :=
  rebuild_chunk_file_of_flatten src_name src_stem content chunk_size
    compression_level min_gain_ratio created_at_unix
    (chunkLoop_flatten chunk_size hcs content)

/-- Witness for C1: a three-byte file chunked with window 2 (level 6,
min gain ratio 0.02) rebuilds to itself. -/
theorem chunk_rebuild_roundTrip_witness :
    0 < 2 ∧ rebuild (chunk_file "a.bin" "a" [10, 20, 30] 2 6 (1 / 50) 0) =
      .ok [10, 20, 30] :=
  ⟨by decide,
   chunk_rebuild_roundTrip "a.bin" "a" [10, 20, 30] 2 6 (1 / 50) 0 (by decide)⟩

/-- C3: `decompress` is the identity on Raw payloads and inverts gzip on
Compressed payloads; applying it to whatever `compress_conditional`
returned yields the original bytes; and empty input is always stored Raw
unchanged. -/
theorem decompress_inverts_compress_conditional :
    (∀ payload : Bytes, decompress payload "raw" = .ok payload)
    ∧ (∀ (level : Nat) (x : Bytes), gzipDecompress (gzipCompress level x) = .ok x)
    ∧ (∀ (raw : Bytes) (level : Nat) (mgr : ℚ),
        decompress (compress_conditional raw level mgr).payload
          (compress_conditional raw level mgr).stored_as = .ok raw)
    ∧ (∀ (level : Nat) (mgr : ℚ),
        compress_conditional [] level mgr =
          { stored_as := "raw", payload := [] }) := by
  refine ⟨?_, ?_, ?_, ?_⟩
  · intro payload
    simp [decompress]
  · intro level x
    exact gzipDecompress_gzipCompress level x
  · intro raw level mgr
    exact decompress_compress_conditional raw level mgr
  · intro level mgr
    rfl

/-- C4: chunking an empty source file yields a manifest with no chunk
entries and `size_file_raw = 0`, and rebuilding that chunk set succeeds
with empty output. -/
theorem chunk_file_empty_input (src_name src_stem : String)
    (chunk_size compression_level : Nat) (min_gain_ratio : ℚ)
    (created_at_unix : Nat) :
    ∃ m : Manifest,
      (chunk_file src_name src_stem [] chunk_size compression_level
        min_gain_ratio created_at_unix).manifest = some m
      ∧ m.chunks = []
      ∧ m.size_file_raw = 0
      ∧ rebuild (chunk_file src_name src_stem [] chunk_size
          compression_level min_gain_ratio created_at_unix) = .ok [] := by
  refine ⟨_, rfl, ?_, ?_, ?_⟩
  · show ((enumFrom 0 (chunkLoop chunk_size [])).map _).map Prod.fst = []
    rw [chunkLoop_nil]
    rfl
  · show (chunkLoop chunk_size []).foldl _ 0 = 0
    rw [chunkLoop_nil]
    rfl
  · exact rebuild_chunk_file_of_flatten src_name src_stem [] chunk_size
      compression_level min_gain_ratio created_at_unix
      (by rw [chunkLoop_nil, List.flatten_nil])

/-- C2: for non-empty input the compressed form is kept exactly when
`len(compressed) <= floor(len(raw) * (1 - min_gain_ratio))`; equality with
the floor stores compressed, one byte above it stores raw.  (The code
computes the threshold with Python `int()`, truncation toward zero; for a
non-negative threshold this is the floor, and for a negative one both
truncation and floor lie below every possible compressed length, so the
branch taken is the same.) -/
theorem compress_conditional_threshold (raw : Bytes) (level : Nat) (mgr : ℚ)
    (hne : raw ≠ []) :
    (((compress_conditional raw level mgr).stored_as = "gzip"
        ∧ (compress_conditional raw level mgr).payload = gzipCompress level raw)
      ↔ ((gzipCompress level raw).length : ℤ) ≤
          ⌊(raw.length : ℚ) * (1 - mgr)⌋)
    ∧ (((gzipCompress level raw).length : ℤ) =
          ⌊(raw.length : ℚ) * (1 - mgr)⌋ →
        (compress_conditional raw level mgr).stored_as = "gzip")
    ∧ (((gzipCompress level raw).length : ℤ) =
          ⌊(raw.length : ℚ) * (1 - mgr)⌋ + 1 →
        (compress_conditional raw level mgr).stored_as = "raw") := by
  have hnil := gzipCompress_ne_nil level raw hne
  have hlen : (1 : ℤ) ≤ ((gzipCompress level raw).length : ℤ) := by
    have := List.length_pos.2 hnil
    exact_mod_cast this
  have hcond : (((gzipCompress level raw).length : ℤ) ≤
      pyInt ((raw.length : ℚ) * (1 - mgr))) ↔
      (((gzipCompress level raw).length : ℤ) ≤
        ⌊(raw.length : ℚ) * (1 - mgr)⌋) := by
    by_cases hq : 0 ≤ (raw.length : ℚ) * (1 - mgr)
    · rw [pyInt, if_pos hq]
    · rw [pyInt, if_neg hq]
      push_neg at hq
      have h1 : ⌊(raw.length : ℚ) * (1 - mgr)⌋ < 0 := by
        have hle := Int.floor_le ((raw.length : ℚ) * (1 - mgr))
        have h0 : ((⌊(raw.length : ℚ) * (1 - mgr)⌋ : ℚ)) < 0 :=
          lt_of_le_of_lt hle hq
        exact_mod_cast h0
      have h2 : 0 ≤ ⌊-((raw.length : ℚ) * (1 - mgr))⌋ :=
        Int.floor_nonneg.2 (by linarith)
      constructor <;> intro h <;> omega
  have hgz : ∀ hc : ((gzipCompress level raw).length : ℤ) ≤
      pyInt ((raw.length : ℚ) * (1 - mgr)),
      compress_conditional raw level mgr =
        { stored_as := "gzip", payload := gzipCompress level raw } := by
    intro hc
    rw [compress_conditional, if_neg hne]
    dsimp only
    rw [if_pos hc]
  have hraw : ∀ hc : ¬ ((gzipCompress level raw).length : ℤ) ≤
      pyInt ((raw.length : ℚ) * (1 - mgr)),
      compress_conditional raw level mgr =
        { stored_as := "raw", payload := raw } := by
    intro hc
    rw [compress_conditional, if_neg hne]
    dsimp only
    rw [if_neg hc]
  refine ⟨⟨?_, ?_⟩, ?_, ?_⟩
  · intro h
    rw [← hcond]
    by_contra hc
    rw [hraw hc] at h
    simp at h
  · intro h
    rw [hgz (hcond.mpr h)]
    exact ⟨rfl, rfl⟩
  · intro heq
    rw [hgz (hcond.mpr (le_of_eq heq))]
  · intro heq
    have hnot : ¬ (((gzipCompress level raw).length : ℤ) ≤
        ⌊(raw.length : ℚ) * (1 - mgr)⌋) := by omega
    rw [hraw (fun hc => hnot (hcond.mp hc))]

/-- Witness for C2: one hundred identical bytes compress (in the model) to
two bytes; with min gain ratio 49/50 the threshold floor is exactly 2 and
the chunk is stored compressed; with 99/100 the floor is 1, the compressed
size is one byte larger, and the chunk is stored raw. -/
theorem compress_conditional_threshold_witness :
    (List.replicate 100 7 ≠ ([] : Bytes))
    ∧ ((gzipCompress 6 (List.replicate 100 7)).length : ℤ) =
        ⌊((List.replicate 100 7 : Bytes).length : ℚ) * (1 - 49 / 50)⌋
    ∧ (compress_conditional (List.replicate 100 7) 6 (49 / 50)).stored_as = "gzip"
    ∧ ((gzipCompress 6 (List.replicate 100 7)).length : ℤ) =
        ⌊((List.replicate 100 7 : Bytes).length : ℚ) * (1 - 99 / 100)⌋ + 1
    ∧ (compress_conditional (List.replicate 100 7) 6 (99 / 100)).stored_as = "raw" := by
  have hne : List.replicate 100 7 ≠ ([] : Bytes) := by decide
  have hlen : (gzipCompress 6 (List.replicate 100 7)).length = 2 := by decide
  have h1 : ((List.replicate 100 7 : Bytes).length : ℚ) * (1 - 49 / 50) =
      ((2 : ℤ) : ℚ) := by
    norm_num
  have h2 : ((List.replicate 100 7 : Bytes).length : ℚ) * (1 - 99 / 100) =
      ((1 : ℤ) : ℚ) := by
    norm_num
  have hb1 : ((gzipCompress 6 (List.replicate 100 7)).length : ℤ) =
      ⌊((List.replicate 100 7 : Bytes).length : ℚ) * (1 - 49 / 50)⌋ := by
    rw [h1, Int.floor_intCast, hlen]
    norm_num
  have hb2 : ((gzipCompress 6 (List.replicate 100 7)).length : ℤ) =
      ⌊((List.replicate 100 7 : Bytes).length : ℚ) * (1 - 99 / 100)⌋ + 1 := by
    rw [h2, Int.floor_intCast, hlen]
    norm_num
  exact ⟨hne, hb1,
    (compress_conditional_threshold (List.replicate 100 7) 6 (49 / 50) hne).2.1 hb1,
    hb2,
    (compress_conditional_threshold (List.replicate 100 7) 6 (99 / 100) hne).2.2 hb2⟩

/-- C5: every manifest produced by `chunk_file` lists its chunks in
ascending index order with indices exactly `0..N-1`; `size_file_raw` is
the sum of the entries' `size_raw`; `size_file_stored_total` is the sum of
the entries' `size_stored`; every entry's `size_stored` and
`sha256_stored` match the payload written to disk under that entry's
filename; and `sha256_file_raw` digests the raw chunks concatenated in
index order. -/
theorem chunk_file_manifest_invariants (src_name src_stem : String)
    (content : Bytes) (chunk_size compression_level : Nat)
    (min_gain_ratio : ℚ) (created_at_unix : Nat) :
    ∃ m : Manifest,
      (chunk_file src_name src_stem content chunk_size compression_level
        min_gain_ratio created_at_unix).manifest = some m
      ∧ m.chunks.map (fun c => c.index) = List.range m.chunks.length
      ∧ m.size_file_raw = (m.chunks.map (fun c => c.size_raw)).sum
      ∧ m.size_file_stored_total = (m.chunks.map (fun c => c.size_stored)).sum
      ∧ (∀ c ∈ m.chunks, ∃ payload,
          lookupFile (chunk_file src_name src_stem content chunk_size
            compression_level min_gain_ratio created_at_unix).files
            c.filename = some payload
          ∧ payload.length = c.size_stored
          ∧ sha256_hex payload = c.sha256_stored)
      ∧ m.sha256_file_raw =
          sha256_hex (chunkLoop chunk_size content).flatten := by
  refine ⟨_, rfl, ?_, ?_, ?_, ?_, ?_⟩
  · dsimp only
    rw [map_mkEntry_index, enumFrom_map_fst]
    simp only [List.length_map, enumFrom_length]
    rw [List.range_eq_range']
  · dsimp only
    rw [map_mkEntry_size_raw,
      enumFrom_map_of_snd List.length 0 (chunkLoop chunk_size content),
      foldl_add_of List.length (chunkLoop chunk_size content) 0, Nat.zero_add]
  · dsimp only
    rw [foldl_items_stored, map_mkEntry_size_stored]
  · intro c hc
    dsimp only at hc ⊢
    simp only [List.map_map, List.mem_map, Function.comp] at hc
    obtain ⟨p, hp, hcp⟩ := hc
    refine ⟨(mkEntry src_stem compression_level min_gain_ratio p.1 p.2).2.2,
      ?_, ?_, ?_⟩
    · have hdist : (((enumFrom 0 (chunkLoop chunk_size content)).map
          (fun q => mkEntry src_stem compression_level min_gain_ratio
            q.1 q.2)).map Prod.snd).Pairwise (fun a b => a.1 ≠ b.1) := by
        rw [List.map_map]
        exact chunkFiles_pairwise _ _ _ _ (enumFrom_pairwise 0 (chunkLoop chunk_size content))
      have hmem : ((mkEntry src_stem compression_level min_gain_ratio
            p.1 p.2).2.1,
          (mkEntry src_stem compression_level min_gain_ratio p.1 p.2).2.2) ∈
          ((enumFrom 0 (chunkLoop chunk_size content)).map
            (fun q => mkEntry src_stem compression_level min_gain_ratio
              q.1 q.2)).map Prod.snd := by
        rw [List.map_map]
        simpa using List.mem_map_of_mem
          (fun q => (mkEntry src_stem compression_level min_gain_ratio
            q.1 q.2).2) hp
      rw [← hcp, mkEntry_filename_eq]
      exact lookupFile_eq_some hdist hmem
    · rw [← hcp]
      simp
    · rw [← hcp]
      simp
  · show hexdigest ((chunkLoop chunk_size content).foldl hasherUpdate sha256_stream_init) =
      sha256_hex (chunkLoop chunk_size content).flatten
    rw [foldl_hasherUpdate, sha256_stream_init, List.nil_append]
    rfl

/-- The verify loop, with its interleaved accumulators, computes exactly
the first-failure scan of independent per-chunk checks: same propagated
exception, same first structured failure, and on full success the hash
state extended by the chunks' raw bytes and the raw total increased by
their lengths (the stored total is existentially quantified: the source
accumulates it but never reads it). -/
theorem verifyChunks_firstFailure (files : List (String × Bytes)) :
    ∀ (l : List ChunkEntry) (st : Bytes) (traw tstored : Nat),
      (∀ e, firstFailure files l = .error e →
        verifyChunks files l st traw tstored = .error e)
      ∧ (∀ r, firstFailure files l = .ok (.inl r) →
        verifyChunks files l st traw tstored = .ok (.inl r))
      ∧ (∀ raws, firstFailure files l = .ok (.inr raws) →
        ∃ ts, verifyChunks files l st traw tstored =
          .ok (.inr (st ++ raws.flatten,
            traw + (raws.map List.length).sum, ts))) := by
  intro l
  induction l with
  | nil =>
    intro st traw tstored
    refine ⟨?_, ?_, ?_⟩
    · intro e he; simp [firstFailure] at he
    · intro r hr; simp [firstFailure] at hr
    · intro raws hraws
      rw [firstFailure] at hraws
      have : raws = [] := by
        cases hraws
        rfl
      subst this
      exact ⟨tstored, by rw [verifyChunks]; simp⟩
  | cons c l ih =>
    intro st traw tstored
    rw [verifyChunks, firstFailure, chunkCheck]
    cases hlook : lookupFile files c.filename with
    | none =>
      dsimp only
      refine ⟨?_, ?_, ?_⟩
      · intro e he; cases he
      · intro r hr
        cases hr
        rfl
      · intro raws h; cases h
    | some payload =>
      dsimp only
      by_cases hsha : sha256_hex payload ≠ c.sha256_stored
      · rw [if_pos hsha, if_pos hsha]
        refine ⟨?_, ?_, ?_⟩
        · intro e he; cases he
        · intro r hr; cases hr; rfl
        · intro raws h; cases h
      · rw [if_neg hsha, if_neg hsha]
        cases hdec : decompress payload c.stored_as with
        | error e =>
          dsimp only
          refine ⟨?_, ?_, ?_⟩
          · intro e2 he; cases he; rfl
          · intro r hr; cases hr
          · intro raws h; cases h
        | ok raw =>
          dsimp only
          by_cases hsz : raw.length ≠ c.size_raw
          · rw [if_pos hsz, if_pos hsz]
            refine ⟨?_, ?_, ?_⟩
            · intro e he; cases he
            · intro r hr; cases hr; rfl
            · intro raws h; cases h
          · rw [if_neg hsz, if_neg hsz]
            by_cases hsr : sha256_hex raw ≠ c.sha256_raw
            · rw [if_pos hsr, if_pos hsr]
              refine ⟨?_, ?_, ?_⟩
              · intro e he; cases he
              · intro r hr; cases hr; rfl
              · intro raws h; cases h
            · rw [if_neg hsr, if_neg hsr]
              obtain ⟨ihe, ihl, ihr⟩ := ih (hasherUpdate st raw)
                (traw + raw.length) (tstored + payload.length)
              refine ⟨?_, ?_, ?_⟩
              · intro e he
                cases hff : firstFailure files l with
                | error e2 =>
                  rw [hff] at he
                  cases he
                  exact ihe _ hff
                | ok v =>
                  rw [hff] at he
                  cases v with
                  | inl r2 => cases he
                  | inr raws2 => cases he
              · intro r hr
                cases hff : firstFailure files l with
                | error e2 => rw [hff] at hr; cases hr
                | ok v =>
                  rw [hff] at hr
                  cases v with
                  | inl r2 =>
                    cases hr
                    exact ihl _ hff
                  | inr raws2 => cases hr
              · intro raws hraws
                cases hff : firstFailure files l with
                | error e2 => rw [hff] at hraws; cases hraws
                | ok v =>
                  rw [hff] at hraws
                  cases v with
                  | inl r2 => cases hraws
                  | inr raws2 =>
                    cases hraws
                    obtain ⟨ts, hvc⟩ := ihr raws2 hff
                    refine ⟨ts, ?_⟩
                    rw [hvc]
                    simp [hasherUpdate, Nat.add_assoc]

/-- C6: for every chunk set whose manifest lists its chunks in ascending
index order (the manifest invariant of spec section 3), `verify` equals the
specification function `verifySpec`: it walks the chunks in ascending index
order, stops at the first failing check — reporting missing chunk file,
stored-hash, raw-size or raw-hash mismatch with the offending chunk
identified, then total-size and file-hash mismatch — and on success
reports chunk count, raw size, stored size, ratio stored/raw and the
configured min_gain_ratio. -/
theorem verify_firstFailure_spec (f : Folder) (mf : Manifest)
    (hm : f.manifest = some mf)
    (hsorted : mf.chunks.Pairwise (fun a b => a.index < b.index)) :
    verify f = verifySpec f := by
  rw [verify, verifySpec, read_manifest_some hm]
  dsimp only
  obtain ⟨ihe, ihl, ihr⟩ :=
    verifyChunks_firstFailure f.files mf.chunks sha256_stream_init 0 0
  cases hff : firstFailure f.files mf.chunks with
  | error e => rw [ihe e hff]
  | ok v =>
    cases v with
    | inl r => rw [ihl r hff]
    | inr raws =>
      obtain ⟨ts, hvc⟩ := ihr raws hff
      rw [hvc]
      dsimp only
      rw [sha256_stream_init]
      simp only [List.nil_append, Nat.zero_add]
      rfl

/-- The concrete manifest and folder used to witness C6: an empty, fully
consistent chunk set. -/
def manifestC6 : Manifest :=
  { version := 1
    original_filename := "a.bin"
    chunk_size := 4
    compression_level := 6
    min_gain_ratio := 1 / 50
    created_at_unix := 0
    chunks := []
    sha256_file_raw := sha256_hex []
    size_file_raw := 0
    size_file_stored_total := 0 }

def folderC6 : Folder := { manifest := some manifestC6, files := [] }

/-- Witness for C6 at a concrete chunk set. -/
theorem verify_firstFailure_spec_witness :
    folderC6.manifest = some manifestC6
    ∧ manifestC6.chunks.Pairwise (fun a b => a.index < b.index)
    ∧ verify folderC6 = verifySpec folderC6 :=
  ⟨rfl, by simp [manifestC6],
   verify_firstFailure_spec folderC6 manifestC6 rfl (by simp [manifestC6])⟩

/-! ### Helper lemmas: which exceptions verify can raise -/

theorem gzipDecompress_error_eq :
    ∀ (l : Bytes) (e : PyErr), gzipDecompress l = .error e → e = .badGzipData
  | [], e, h => by cases h
  | [x], e, h => by cases h; rfl
  | n :: b :: rest, e, h => by
    rw [gzipDecompress] at h
    by_cases hn : n = 0
    · rw [if_pos hn] at h
      cases h
      rfl
    · rw [if_neg hn] at h
      cases hd : gzipDecompress rest with
      | error e2 =>
        rw [hd] at h
        injection h with he
        subst he
        exact gzipDecompress_error_eq rest e2 hd
      | ok t =>
        rw [hd] at h
        cases h

theorem decompress_error_eq {payload : Bytes} {sa : String} {e : PyErr}
    (h : decompress payload sa = .error e) :
    e = .valueError ∨ e = .badGzipData := by
  rw [decompress] at h
  by_cases h1 : sa = "raw"
  · rw [if_pos h1] at h
    cases h
  · rw [if_neg h1] at h
    by_cases h2 : sa = "gzip"
    · rw [if_pos h2] at h
      exact .inr (gzipDecompress_error_eq _ _ h)
    · rw [if_neg h2] at h
      cases h
      exact .inl rfl

/-- The only exceptions that can escape the verify loop come out of
`decompress`. -/
theorem verifyChunks_error_eq (files : List (String × Bytes)) :
    ∀ (l : List ChunkEntry) (st : Bytes) (traw tstored : Nat) (e : PyErr),
      verifyChunks files l st traw tstored = .error e →
      e = .valueError ∨ e = .badGzipData := by
  intro l
  induction l with
  | nil => intro st traw ts e h; cases h
  | cons c l ih =>
    intro st traw ts e h
    rw [verifyChunks] at h
    cases hlook : lookupFile files c.filename with
    | none => rw [hlook] at h; cases h
    | some payload =>
      rw [hlook] at h
      dsimp only at h
      by_cases hsha : sha256_hex payload ≠ c.sha256_stored
      · rw [if_pos hsha] at h; cases h
      · rw [if_neg hsha] at h
        cases hdec : decompress payload c.stored_as with
        | error e2 =>
          rw [hdec] at h
          cases h
          exact decompress_error_eq hdec
        | ok raw =>
          rw [hdec] at h
          dsimp only at h
          by_cases hsz : raw.length ≠ c.size_raw
          · rw [if_pos hsz] at h; cases h
          · rw [if_neg hsz] at h
            by_cases hsr : sha256_hex raw ≠ c.sha256_raw
            · rw [if_pos hsr] at h; cases h
            · rw [if_neg hsr] at h
              exact ih _ _ _ _ h

/-- When every entry is stored raw, `decompress` never runs gzip and the
verify loop cannot raise at all. -/
theorem verifyChunks_raw_no_error (files : List (String × Bytes)) :
    ∀ (l : List ChunkEntry), (∀ c ∈ l, c.stored_as = "raw") →
      ∀ (st : Bytes) (traw tstored : Nat),
        ∃ x, verifyChunks files l st traw tstored = .ok x := by
  intro l
  induction l with
  | nil => intro _ st traw ts; exact ⟨.inr (st, traw, ts), rfl⟩
  | cons c l ih =>
    intro hall st traw ts
    rw [verifyChunks]
    cases hlook : lookupFile files c.filename with
    | none => exact ⟨.inl (.missing c.filename), rfl⟩
    | some payload =>
      dsimp only
      by_cases hsha : sha256_hex payload ≠ c.sha256_stored
      · rw [if_pos hsha]
        exact ⟨_, rfl⟩
      · rw [if_neg hsha]
        have hdec : decompress payload c.stored_as = .ok payload := by
          rw [hall c (List.mem_cons_self ..), decompress, if_pos rfl]
        rw [hdec]
        dsimp only
        by_cases hsz : payload.length ≠ c.size_raw
        · rw [if_pos hsz]
          exact ⟨_, rfl⟩
        · rw [if_neg hsz]
          by_cases hsr : sha256_hex payload ≠ c.sha256_raw
          · rw [if_pos hsr]
            exact ⟨_, rfl⟩
          · rw [if_neg hsr]
            exact ih (fun c2 hc2 => hall c2 (List.mem_cons_of_mem _ hc2)) _ _ _

/-- C7 (amended): `verify` reports missing chunk files and hash/size
mismatches as structured failures, and — beyond manifest-read errors — the
only exceptions escaping it are those `decompress` raises (unrecognised
stored variant, or a payload that is not valid compressed data even though
its stored hash matches); in particular, on a chunk set whose entries are
all stored raw, `verify` never raises. -/
theorem verify_error_classification :
    (∀ (f : Folder) (mf : Manifest) (e : PyErr), f.manifest = some mf →
        verify f = .error e → e = .valueError ∨ e = .badGzipData)
    ∧ (∀ (f : Folder) (mf : Manifest), f.manifest = some mf →
        (∀ c ∈ mf.chunks, c.stored_as = "raw") →
        ∃ r, verify f = .ok r) := by
  constructor
  · intro f mf e hm h
    rw [verify, read_manifest_some hm] at h
    dsimp only at h
    cases hvc : verifyChunks f.files mf.chunks sha256_stream_init 0 0 with
    | error e2 =>
      rw [hvc] at h
      cases h
      exact verifyChunks_error_eq f.files mf.chunks _ _ _ _ hvc
    | ok v =>
      rw [hvc] at h
      cases v with
      | inl r => cases h
      | inr t =>
        obtain ⟨st, traw, ts⟩ := t
        dsimp only at h
        by_cases h1 : traw ≠ mf.size_file_raw
        · rw [if_pos h1] at h; cases h
        · rw [if_neg h1] at h
          by_cases h2 : hexdigest st ≠ mf.sha256_file_raw
          · rw [if_pos h2] at h; cases h
          · rw [if_neg h2] at h; cases h
  · intro f mf hm hall
    rw [verify, read_manifest_some hm]
    dsimp only
    obtain ⟨x, hx⟩ := verifyChunks_raw_no_error f.files mf.chunks hall
      sha256_stream_init 0 0
    rw [hx]
    cases x with
    | inl r => exact ⟨.fail r, rfl⟩
    | inr t =>
      obtain ⟨st, traw, ts⟩ := t
      dsimp only
      by_cases h1 : traw ≠ mf.size_file_raw
      · rw [if_pos h1]
        exact ⟨_, rfl⟩
      · rw [if_neg h1]
        by_cases h2 : hexdigest st ≠ mf.sha256_file_raw
        · rw [if_pos h2]
          exact ⟨_, rfl⟩
        · rw [if_neg h2]
          exact ⟨_, rfl⟩

/-- A crafted chunk set whose single chunk records variant "gzip" and whose
stored hash matches a one-byte payload that is not valid compressed data. -/
def manifestC7x : Manifest :=
  { version := 1
    original_filename := "a"
    chunk_size := 4
    compression_level := 6
    min_gain_ratio := 1 / 50
    created_at_unix := 0
    chunks := [{ index := 0, filename := "a.part000000.gz", stored_as := "gzip",
                 size_raw := 1, size_stored := 1,
                 sha256_raw := sha256_hex [0], sha256_stored := sha256_hex [0] }]
    sha256_file_raw := sha256_hex [0]
    size_file_raw := 1
    size_file_stored_total := 1 }

def folderC7x : Folder :=
  { manifest := some manifestC7x, files := [("a.part000000.gz", [0])] }

/-- A crafted chunk set whose single chunk records an unrecognised stored
variant, with a matching stored hash. -/
def manifestC7y : Manifest :=
  { version := 1
    original_filename := "a"
    chunk_size := 4
    compression_level := 6
    min_gain_ratio := 1 / 50
    created_at_unix := 0
    chunks := [{ index := 0, filename := "a.part000000.raw", stored_as := "banana",
                 size_raw := 1, size_stored := 1,
                 sha256_raw := sha256_hex [0], sha256_stored := sha256_hex [0] }]
    sha256_file_raw := sha256_hex [0]
    size_file_raw := 1
    size_file_stored_total := 1 }

def folderC7y : Folder :=
  { manifest := some manifestC7y, files := [("a.part000000.raw", [0])] }

/-- Counterexample to C7 as stated: `verify` does raise on these two
integrity problems — a payload that is not valid compressed data, and an
unrecognised stored variant — rather than returning a structured failure
result. -/
theorem verify_raises_on_decode_counterexample :
    verify folderC7x = .error .badGzipData
    ∧ verify folderC7y = .error .valueError := by
  constructor <;> rfl

/-- A one-chunk all-raw chunk set, fully consistent: used to witness the
amended C7. -/
def manifestC7w : Manifest :=
  { version := 1
    original_filename := "a"
    chunk_size := 4
    compression_level := 6
    min_gain_ratio := 1 / 50
    created_at_unix := 0
    chunks := [{ index := 0, filename := "a.part000000.raw", stored_as := "raw",
                 size_raw := 1, size_stored := 1,
                 sha256_raw := sha256_hex [5], sha256_stored := sha256_hex [5] }]
    sha256_file_raw := sha256_hex [5]
    size_file_raw := 1
    size_file_stored_total := 1 }

def folderC7w : Folder :=
  { manifest := some manifestC7w, files := [("a.part000000.raw", [5])] }

/-- Witness for the amended C7 at a concrete all-raw chunk set. -/
theorem verify_error_classification_witness :
    folderC7w.manifest = some manifestC7w
    ∧ (∀ c ∈ manifestC7w.chunks, c.stored_as = "raw")
    ∧ (∃ r, verify folderC7w = .ok r) :=
  ⟨rfl, by simp [manifestC7w],
   verify_error_classification.2 folderC7w manifestC7w rfl (by simp [manifestC7w])⟩

/-! ### Helper lemmas: the stats size accumulation -/

/-- When every listed chunk file is on disk, the `stats` size loop sums the
actual on-disk file sizes, whatever the contents are. -/
theorem statSum_all_present (files : List (String × Bytes)) :
    ∀ (l : List ChunkEntry) (acc : Nat),
      (∀ c ∈ l, ∃ b, lookupFile files c.filename = some b) →
      statSum files l acc =
        .ok (acc + (l.map
          (fun c => ((lookupFile files c.filename).getD []).length)).sum) := by
  intro l
  induction l with
  | nil => intro acc _; simp [statSum]
  | cons c l ih =>
    intro acc hall
    obtain ⟨b, hb⟩ := hall c (List.mem_cons_self ..)
    rw [statSum, hb]
    dsimp only
    rw [ih (acc + b.length) (fun c2 hc2 => hall c2 (List.mem_cons_of_mem _ hc2))]
    simp [hb, Nat.add_assoc]

/-- C8 (amended): `stats` performs no decompression and no hash
verification: whenever the manifest is readable and every listed chunk file
exists on disk, it succeeds — regardless of the files' contents, which may
have been altered — and reports the actual on-disk total stored size (the
sum of the real file sizes).  (It can, however, also fail when a listed
chunk file is missing: the size lookup raises, as the separate
counterexample shows.) -/
theorem stats_no_integrity_checks (f : Folder) (mf : Manifest)
    (hm : f.manifest = some mf)
    (hall : ∀ c ∈ mf.chunks, ∃ b, lookupFile f.files c.filename = some b) :
    stats f = .ok
      { chunks_total := mf.chunks.length
        chunks_raw := (mf.chunks.filter (fun c => c.stored_as == "raw")).length
        chunks_gzip := mf.chunks.length -
          (mf.chunks.filter (fun c => c.stored_as == "raw")).length
        chunk_size := mf.chunk_size
        size_file_raw := mf.size_file_raw
        size_file_stored_manifest := mf.size_file_stored_total
        size_file_stored_actual := (mf.chunks.map
          (fun c => ((lookupFile f.files c.filename).getD []).length)).sum
        ratio := if mf.size_file_raw ≠ 0 then
            ((mf.chunks.map
              (fun c => ((lookupFile f.files c.filename).getD []).length)).sum : ℚ) /
              (mf.size_file_raw : ℚ)
          else 0 } := by
  rw [stats, read_manifest_some hm]
  dsimp only
  rw [statSum_all_present f.files mf.chunks 0 hall]
  dsimp only
  rw [Nat.zero_add]

/-- A manifest that lists a chunk file absent from the folder. -/
def manifestC8x : Manifest :=
  { version := 1
    original_filename := "a"
    chunk_size := 4
    compression_level := 6
    min_gain_ratio := 1 / 50
    created_at_unix := 0
    chunks := [{ index := 0, filename := "a.part000000.raw", stored_as := "raw",
                 size_raw := 1, size_stored := 1,
                 sha256_raw := sha256_hex [5], sha256_stored := sha256_hex [5] }]
    sha256_file_raw := sha256_hex [5]
    size_file_raw := 1
    size_file_stored_total := 1 }

def folderC8x : Folder := { manifest := some manifestC8x, files := [] }

/-- Counterexample to C8 as stated: with a perfectly readable manifest,
`stats` fails anyway — the size lookup on a missing listed chunk file
raises `FileNotFoundError`, which is not a manifest-read error. -/
theorem stats_missing_chunk_counterexample :
    folderC8x.manifest = some manifestC8x
    ∧ stats folderC8x = .error .fileNotFound := by
  constructor <;> rfl

/-- A chunk set whose single stored file was altered on disk: the manifest
records five stored bytes, the actual file holds three different bytes. -/
def manifestC8w : Manifest :=
  { version := 1
    original_filename := "a"
    chunk_size := 8
    compression_level := 6
    min_gain_ratio := 1 / 50
    created_at_unix := 0
    chunks := [{ index := 0, filename := "a.part000000.raw", stored_as := "raw",
                 size_raw := 5, size_stored := 5,
                 sha256_raw := sha256_hex [9, 9, 9, 9, 9],
                 sha256_stored := sha256_hex [9, 9, 9, 9, 9] }]
    sha256_file_raw := sha256_hex [9, 9, 9, 9, 9]
    size_file_raw := 5
    size_file_stored_total := 5 }

def folderC8w : Folder :=
  { manifest := some manifestC8w, files := [("a.part000000.raw", [1, 2, 3])] }

/-- Witness for the amended C8: on the altered chunk set, `stats` succeeds
and reports the actual on-disk stored size (3), which diverges from the
manifest-recorded total (5). -/
theorem stats_no_integrity_checks_witness :
    folderC8w.manifest = some manifestC8w
    ∧ (∀ c ∈ manifestC8w.chunks, ∃ b, lookupFile folderC8w.files c.filename = some b)
    ∧ stats folderC8w = .ok
        { chunks_total := manifestC8w.chunks.length
          chunks_raw := (manifestC8w.chunks.filter
            (fun c => c.stored_as == "raw")).length
          chunks_gzip := manifestC8w.chunks.length -
            (manifestC8w.chunks.filter (fun c => c.stored_as == "raw")).length
          chunk_size := manifestC8w.chunk_size
          size_file_raw := manifestC8w.size_file_raw
          size_file_stored_manifest := manifestC8w.size_file_stored_total
          size_file_stored_actual := (manifestC8w.chunks.map
            (fun c => ((lookupFile folderC8w.files c.filename).getD []).length)).sum
          ratio := if manifestC8w.size_file_raw ≠ 0 then
              ((manifestC8w.chunks.map
                (fun c => ((lookupFile folderC8w.files c.filename).getD
                  []).length)).sum : ℚ) / (manifestC8w.size_file_raw : ℚ)
            else 0 }
    ∧ (manifestC8w.chunks.map
        (fun c => ((lookupFile folderC8w.files c.filename).getD []).length)).sum = 3
    ∧ manifestC8w.size_file_stored_total = 5 :=
  ⟨rfl,
   by
    intro c hc
    simp only [manifestC8w, List.mem_singleton] at hc
    subst hc
    exact ⟨[1, 2, 3], rfl⟩,
   stats_no_integrity_checks folderC8w manifestC8w rfl
    (by
      intro c hc
      simp only [manifestC8w, List.mem_singleton] at hc
      subst hc
      exact ⟨[1, 2, 3], rfl⟩),
   rfl, rfl⟩

/-- A fully consistent, empty chunk set whose manifest carries version 2. -/
def manifestC9 : Manifest :=
  { version := 2
    original_filename := "a.bin"
    chunk_size := 4
    compression_level := 6
    min_gain_ratio := 1 / 50
    created_at_unix := 0
    chunks := []
    sha256_file_raw := sha256_hex []
    size_file_raw := 0
    size_file_stored_total := 0 }

def folderC9 : Folder := { manifest := some manifestC9, files := [] }

/-- Counterexample to C9 as stated: the manifest reader accepts a manifest
whose version is 2 — and `rebuild`, `verify` and `stats` all process it
successfully instead of rejecting it. -/
theorem read_manifest_accepts_version_two :
    manifestC9.version = 2
    ∧ read_manifest folderC9 = .ok manifestC9
    ∧ rebuild folderC9 = .ok []
    ∧ verify folderC9 = .ok (.ok
        { chunks := 0
          size_file_raw := 0
          size_file_stored_total := 0
          ratio := 0
          algo := "gzip + conditional(raw fallback)"
          min_gain_ratio := 1 / 50 })
    ∧ stats folderC9 = .ok
        { chunks_total := 0
          chunks_raw := 0
          chunks_gzip := 0
          chunk_size := 4
          size_file_raw := 0
          size_file_stored_manifest := 0
          size_file_stored_actual := 0
          ratio := 0 } := by
  refine ⟨rfl, rfl, rfl, rfl, rfl⟩

/-- C9 (amended): the manifest reader performs no version validation at
all — every persisted manifest, in particular one whose version is not 1,
is returned unchanged to `rebuild`, `verify` and `stats` rather than being
rejected. -/
theorem read_manifest_no_version_check (f : Folder) (mf : Manifest)
    (hm : f.manifest = some mf) (hv : mf.version ≠ 1) :
    read_manifest f = .ok mf :=
  read_manifest_some hm

/-- Witness for the amended C9 at the version-2 manifest. -/
theorem read_manifest_no_version_check_witness :
    folderC9.manifest = some manifestC9
    ∧ manifestC9.version ≠ 1
    ∧ read_manifest folderC9 = .ok manifestC9 :=
  ⟨rfl, by decide,
   read_manifest_no_version_check folderC9 manifestC9 rfl (by decide)⟩

/-- C10: the stored/raw division in both `verify` (success path) and
`stats` is guarded: a manifest with `size_file_raw = 0` yields ratio 0
instead of a division-by-zero failure. -/
theorem ratio_zero_guard :
    (∀ (f : Folder) (s : VerifyOk), verify f = .ok (.ok s) →
      s.size_file_raw = 0 → s.ratio = 0)
    ∧ (∀ (f : Folder) (r : StatsResult), stats f = .ok r →
      r.size_file_raw = 0 → r.ratio = 0) := by
  constructor
  · intro f s h h0
    rw [verify] at h
    cases hrm : read_manifest f with
    | error e => rw [hrm] at h; cases h
    | ok mf =>
      rw [hrm] at h
      dsimp only at h
      cases hvc : verifyChunks f.files mf.chunks sha256_stream_init 0 0 with
      | error e => rw [hvc] at h; cases h
      | ok v =>
        rw [hvc] at h
        cases v with
        | inl r => cases h
        | inr t =>
          obtain ⟨st, traw, ts⟩ := t
          dsimp only at h
          by_cases h1 : traw ≠ mf.size_file_raw
          · rw [if_pos h1] at h; cases h
          · rw [if_neg h1] at h
            by_cases h2 : hexdigest st ≠ mf.sha256_file_raw
            · rw [if_pos h2] at h; cases h
            · rw [if_neg h2] at h
              cases h
              dsimp only at h0 ⊢
              rw [if_neg (fun hn => hn h0)]
  · intro f r h h0
    rw [stats] at h
    cases hrm : read_manifest f with
    | error e => rw [hrm] at h; cases h
    | ok mf =>
      rw [hrm] at h
      dsimp only at h
      cases hss : statSum f.files mf.chunks 0 with
      | error e => rw [hss] at h; cases h
      | ok stored_actual =>
        rw [hss] at h
        cases h
        dsimp only at h0 ⊢
        rw [if_neg (fun hn => hn h0)]

/-- A consistent empty chunk set (version 1) for the C10 witness. -/
def manifestC10 : Manifest :=
  { version := 1
    original_filename := "a.bin"
    chunk_size := 4
    compression_level := 6
    min_gain_ratio := 1 / 50
    created_at_unix := 0
    chunks := []
    sha256_file_raw := sha256_hex []
    size_file_raw := 0
    size_file_stored_total := 0 }

def folderC10 : Folder := { manifest := some manifestC10, files := [] }

def verifyOkC10 : VerifyOk :=
  { chunks := 0
    size_file_raw := 0
    size_file_stored_total := 0
    ratio := 0
    algo := "gzip + conditional(raw fallback)"
    min_gain_ratio := 1 / 50 }

def statsRecC10 : StatsResult :=
  { chunks_total := 0
    chunks_raw := 0
    chunks_gzip := 0
    chunk_size := 4
    size_file_raw := 0
    size_file_stored_manifest := 0
    size_file_stored_actual := 0
    ratio := 0 }

/-- Witness for C10 at a concrete zero-raw-size chunk set, for both
`verify` and `stats`. -/
theorem ratio_zero_guard_witness :
    verify folderC10 = .ok (.ok verifyOkC10)
    ∧ verifyOkC10.size_file_raw = 0
    ∧ verifyOkC10.ratio = 0
    ∧ stats folderC10 = .ok statsRecC10
    ∧ statsRecC10.size_file_raw = 0
    ∧ statsRecC10.ratio = 0 :=
  ⟨rfl, rfl, ratio_zero_guard.1 folderC10 verifyOkC10 rfl rfl,
   rfl, rfl, ratio_zero_guard.2 folderC10 statsRecC10 rfl rfl⟩

end FileChunking
